import Mathlib

/-
Shallow embedding of the periscope-py charting code
(src/periscope-py/src/cmp_bars.py and src/periscope-py/src/whiskers.py).

Modelling conventions:
- Python floats are modelled as exact rationals.  All operations the claims
  touch (subtraction, comparison with 0, division by a list length, max,
  truncation by int()) are exact on the float inputs of interest, so the
  rational model is faithful for them.
- Python exceptions are modelled with `Except PyErr`; an uncaught exception
  in a function body is an `Except.error` result.
- Python strings are modelled as Lean strings restricted to ASCII, where
  Python's str.isdigit coincides with Char.isDigit and str comparison is
  lexicographic on code points, as in Lean.
- `periscope_result.BenchResult` is not part of the two source files; its
  data shape (a name plus an ordered list of hyperfine measurements, each
  with a median and a list of individual times) is modelled from the spec.
- Python's `sorted(..., key=functools.cmp_to_key(c))` is modelled as a
  stable comparator-based insertion sort: an element `x` originally before
  `y` stays before `y` exactly when `c x y <= 0`.  Comparator calls may
  raise, in which case the whole sort raises.
-/

deriving instance DecidableEq for Except

namespace Periscope

/-- Python exceptions surfaced by the modelled code paths. -/
inductive PyErr where
  | zeroDivisionError : PyErr
  | indexError : PyErr
  | valueError : String → PyErr
deriving DecidableEq

/-- One hyperfine measurement: a median and the list of individual timings.
Modelled from the spec: each measurement of a BenchmarkRecord has at least a
median and a sample of individual timings (spec section 3). -/
structure HyperfineResult where
  median : ℚ
  times : List ℚ
deriving DecidableEq

/-- Modelled from the spec: `periscope_result.BenchResult` (not under src/)
is a BenchmarkRecord: a benchmark name and its ordered sequence of repeated
measurements (spec section 3). -/
structure BenchResult where
  name : String
  results : List HyperfineResult
deriving DecidableEq

/-- Modelled from the spec: `BenchResult.hyperfine_results()` returns the
record's ordered measurement sequence. -/
def BenchResult.hyperfine_results (b : BenchResult) : List HyperfineResult :=
  b.results

/-- `b.hyperfine_results()[0]`: Python indexing raises IndexError on an
empty list. -/
def firstMedian (b : BenchResult) : Except PyErr ℚ :=
  match b.hyperfine_results with
  | [] => .error .indexError
  | r :: _ => .ok r.median

/-- Python `int()` applied to a float: truncation toward zero. -/
def truncRat (q : ℚ) : ℤ :=
  if q < 0 then -(Int.floor (-q)) else Int.floor q

/-- The Python list comprehension
`[b.hyperfine_results()[0].median for b in d.values()]`: the first medians
of the records, left to right; the first record with no measurement raises
IndexError. -/
def firstMedians : List (String × BenchResult) → Except PyErr (List ℚ)
  | [] => .ok []
  | p :: rest =>
    match firstMedian p.2 with
    | .error e => .error e
    | .ok m =>
      match firstMedians rest with
      | .error e => .error e
      | .ok ms => .ok (m :: ms)

/-- `cmp_median(medians, labels)` from cmp_bars.py and whiskers.py.  The
closure returns `medians[i] - medians[j]` when that difference is nonzero
and otherwise the Python boolean `labels[i] < labels[j]`, which the
`functools.cmp_to_key` wrapper consumes as the number 1 (True) or 0
(False).  List indexing raises IndexError when out of range; `labels` is
only indexed in the tie branch, as in the source. -/
def cmp_median (medians : List ℚ) (labels : List String) (i j : ℕ) :
    Except PyErr ℚ :=
  match medians[i]? with
  | none => .error .indexError
  | some mi =>
    match medians[j]? with
    | none => .error .indexError
    | some mj =>
      let med_cmp := mi - mj
      if med_cmp = 0 then
        match labels[i]?, labels[j]? with
        | some li, some lj => .ok (if li < lj then 1 else 0)
        | _, _ => .error .indexError
      else .ok med_cmp

/-- A `(baseName, configMap)` pair as produced by `per_file.items()`: the
dict is an insertion-ordered association list. -/
abbrev PGroup : Type := String × List (String × BenchResult)

/-- `cmp_median_multi()` from cmp_bars.py.  `length = len(i)` where `i` is
the `(baseName, configMap)` 2-tuple, so the divisor is the tuple arity 2,
not the size of the configuration map.  The first medians of all records of
`i` are computed before those of `j`, as in the Python `sum` expressions,
and the result is `int(med_i_avg - med_j_avg)`. -/
def cmp_median_multi (i j : PGroup) : Except PyErr ℤ :=
  match firstMedians i.2 with
  | .error e => .error e
  | .ok i_meds =>
    match firstMedians j.2 with
    | .error e => .error e
    | .ok j_meds =>
      let length : ℚ := 2
      let med_i_avg := i_meds.sum / length
      let med_j_avg := j_meds.sum / length
      .ok (truncRat (med_i_avg - med_j_avg))

/-- Python `a.split("-")` on the character list of `a`: splits at every
dash, keeping empty pieces (so `"a--b"` gives three pieces and `""` gives
one empty piece), exactly as Python's `str.split` with an explicit
separator. -/
def splitDash : List Char → List Char → List (List Char)
  | [], acc => [acc.reverse]
  | c :: rest, acc =>
    if c = '-' then acc.reverse :: splitDash rest []
    else splitDash rest (c :: acc)

/-- The Python whitespace characters stripped by `int()` around a numeric
literal. -/
def isPyWs (c : Char) : Bool :=
  c = ' ' || c = '\t' || c = '\n' || c = '\r' || c = '\x0b' || c = '\x0c'

/-- Drop trailing whitespace, as `int()` does before parsing. -/
def stripTrailingWs (cs : List Char) : List Char :=
  (cs.reverse.dropWhile isPyWs).reverse

/-- After an initial digit, the body of a Python integer literal is digits
with single underscores allowed only between digits. -/
def goodTail : List Char → Bool
  | [] => true
  | c :: rest =>
    if c = '_' then
      match rest with
      | [] => false
      | d :: rest2 => d.isDigit && goodTail rest2
    else c.isDigit && goodTail rest

/-- A valid Python integer literal starting with a digit: a digit followed
by digits with single underscores between digits. -/
def goodCore : List Char → Bool
  | [] => false
  | c :: rest => c.isDigit && goodTail rest

/-- Numeric value of a list of decimal digits. -/
def digitsVal (cs : List Char) : ℕ :=
  cs.foldl (fun n c => 10 * n + (c.toNat - 48)) 0

/-- Python `int(s)` for a string that begins with a digit (the only shape
the legend comparator ever parses): optional trailing whitespace is
stripped, the rest must be digits with single underscores between digits,
and the value ignores the underscores.  `none` models an uncaught
ValueError. -/
def pyInt (cs : List Char) : Option ℕ :=
  let core := stripTrailingWs cs
  if goodCore core then some (digitsVal (core.filter (fun c => !(c = '_')))) else none

/-- `tok.removesuffix("b")` on one token: drops a single trailing b if
present. -/
def removeB (tok : List Char) : List Char :=
  if tok.getLast? = some 'b' then tok.dropLast else tok

/-- `int(tok.removesuffix("b"))` for one extracted token. -/
def pyIntTok (tok : List Char) : Option ℕ :=
  pyInt (removeB tok)

/-- The token filter of `cmp_legend`: keep the dash-separated pieces that
are nonempty and start with a digit. -/
def legendTokens (s : String) : List (List Char) :=
  (splitDash s.data []).filter fun t =>
    match t with
    | [] => false
    | c :: _ => c.isDigit

/-- The `for num_a, num_b in zip(...)` loop of `cmp_legend`: walk the two
token sequences up to the shorter length, parse both tokens of a pair
(first `num_a`, then `num_b`, as in the source), return the first nonzero
difference, and 0 if no pair differs.  A failing `int()` is an uncaught
ValueError carrying the offending token. -/
def legendLoop : List (List Char) → List (List Char) → Except PyErr ℤ
  | ta :: resta, tb :: restb =>
    match pyIntTok ta with
    | none => .error (.valueError (String.mk ta))
    | some na =>
      match pyIntTok tb with
      | none => .error (.valueError (String.mk tb))
      | some nb =>
        if (na : ℤ) - nb ≠ 0 then .ok ((na : ℤ) - nb)
        else legendLoop resta restb
  | _, _ => .ok 0

/-- `cmp_legend()` from cmp_bars.py: extract the digit-initial tokens of
both labels and run the pairwise loop. -/
def cmp_legend (a b : String) : Except PyErr ℤ :=
  legendLoop (legendTokens a) (legendTokens b)

/-- Python `s.removesuffix(suf)`: if `suf` is nonempty and `s` ends with
`suf`, drop it; otherwise return `s` unchanged. -/
def removesuffix (s suf : String) : String :=
  if suf.data ≠ [] ∧ suf.data.isSuffixOf s.data then
    String.mk (s.data.take (s.data.length - suf.data.length))
  else s

/-- The base-name normalization chain of `plot_cmp_bars` (cmp_bars.py
lines 86-93): six `removesuffix` calls, each attempted exactly once, in
this fixed order. -/
def b_name (s : String) : String :=
  removesuffix
    (removesuffix
      (removesuffix
        (removesuffix
          (removesuffix
            (removesuffix s "-rotorized.btor2")
            "-35")
          "-10")
        "-1")
      "-2")
    "-3"

/-- Stable comparator insertion: place `x` (originally earlier) before the
first element `y` with `nonpos (cmp x y)`; a raising comparator aborts the
sort.  `nonpos` is how `functools.cmp_to_key` consumes the comparator value
(here: is it less than or equal to zero). -/
def insertCmp {α β : Type} (nonpos : β → Bool) (cmp : α → α → Except PyErr β)
    (x : α) : List α → Except PyErr (List α)
  | [] => .ok [x]
  | y :: ys =>
    match cmp x y with
    | .error e => .error e
    | .ok c =>
      if nonpos c then .ok (x :: y :: ys)
      else
        match insertCmp nonpos cmp x ys with
        | .error e => .error e
        | .ok rest => .ok (y :: rest)

/-- Model of Python `sorted(l, key=functools.cmp_to_key(cmp))`: a stable
comparator sort. -/
def sortCmp {α β : Type} (nonpos : β → Bool) (cmp : α → α → Except PyErr β) :
    List α → Except PyErr (List α)
  | [] => .ok []
  | x :: xs =>
    match sortCmp nonpos cmp xs with
    | .error e => .error e
    | .ok rest => insertCmp nonpos cmp x rest

/-- Is an integer comparator value less than or equal to zero. -/
def intNonpos (c : ℤ) : Bool := c ≤ 0

/-- Is a rational comparator value less than or equal to zero. -/
def ratNonpos (c : ℚ) : Bool := c ≤ 0

/-- `per_file[b_name][bench_config] = bench_result` on the inner dict:
replace the value at an existing key in place, or append a new key at the
end, Python dict semantics. -/
def updInner (config : String) (br : BenchResult) :
    List (String × BenchResult) → List (String × BenchResult)
  | [] => [(config, br)]
  | (c, b) :: rest =>
    if c = config then (c, br) :: rest else (c, b) :: updInner config br rest

/-- The combined `if b_name not in per_file: per_file[b_name] = {}` and
`per_file[b_name][bench_config] = bench_result` update on the outer dict. -/
def updOuter (bn config : String) (br : BenchResult) :
    List (String × List (String × BenchResult)) →
      List (String × List (String × BenchResult))
  | [] => [(bn, [(config, br)])]
  | (n, inner) :: rest =>
    if n = bn then (n, updInner config br inner) :: rest
    else (n, inner) :: updOuter bn config br rest

/-- The grouping loop of `plot_cmp_bars` (cmp_bars.py lines 84-98): for
each configuration of the sorted legend and each of its benchmark results,
normalize the record name, update `max_time` with the record's first
median (`hyperfine_results()[0]` raises IndexError on a record with no
measurements, aborting the call), and store the record in
`per_file[b_name][bench_config]`.  The state is `(per_file, max_time)`
with `max_time` starting at 0. -/
def buildPerFileMax (legend : List String)
    (periscope_results : List (String × List BenchResult)) :
    Except PyErr (List (String × List (String × BenchResult)) × ℚ) :=
  legend.foldlM
    (fun st bench_config =>
      ((periscope_results.lookup bench_config).getD []).foldlM
        (fun st bench_result =>
          match firstMedian bench_result with
          | .error e => .error e
          | .ok m =>
            .ok (updOuter (b_name bench_result.name) bench_config bench_result st.1,
                 max st.2 m))
        st)
    ([], 0)

/-- The data path of `plot_cmp_bars`: sort the keys with `cmp_legend`;
`bar_w = (1 - 0.4) / len(legend)` raises ZeroDivisionError when the legend
is empty; group the records per base name; when sorting by median, sort
the groups with `cmp_median_multi`.  The returned value is the final
ordered `per_file` mapping (the rendering that consumes it is presentation
only). -/
def plot_cmp_bars (sort_by : String)
    (periscope_results : List (String × List BenchResult)) :
    Except PyErr (List (String × List (String × BenchResult))) :=
  match sortCmp intNonpos (fun a b => cmp_legend a b)
      (periscope_results.map Prod.fst) with
  | .error e => .error e
  | .ok legend =>
    if legend.length = 0 then .error .zeroDivisionError
    else
      match buildPerFileMax legend periscope_results with
      | .error e => .error e
      | .ok (per_file, _max_time) =>
        if sort_by = "median" then
          sortCmp intNonpos cmp_median_multi per_file
        else .ok per_file

/-- `labels = [b.name for b in periscope_results]` in plot_whiskers. -/
def whisk_labels (prs : List BenchResult) : List String :=
  prs.map (fun b => b.name)

/-- `times = [b.times for pr in periscope_results for b in pr.hyperfine_results()]`. -/
def whisk_times (prs : List BenchResult) : List (List ℚ) :=
  prs.flatMap (fun pr => pr.hyperfine_results.map (fun b => b.times))

/-- `medians = [b.median for pr in periscope_results for b in pr.hyperfine_results()]`. -/
def whisk_medians (prs : List BenchResult) : List ℚ :=
  prs.flatMap (fun pr => pr.hyperfine_results.map (fun b => b.median))

/-- `np.max(times)` over the per-benchmark timing lists: the maximum of all
entries; on an empty input numpy raises
"zero-size array to reduction operation maximum which has no identity"
(a ValueError).  The model assumes the rows form a well-formed array, which
holds for the inputs considered here. -/
def npMax (times : List (List ℚ)) : Except PyErr ℚ :=
  match times.flatMap id with
  | [] => .error (.valueError "zero-size array to reduction operation maximum which has no identity")
  | t :: ts => .ok (ts.foldl max t)

/-- Python `labels[i]` on a list: IndexError when out of range. -/
def pyGet {α : Type} (l : List α) (i : ℕ) : Except PyErr α :=
  match l[i]? with
  | none => .error .indexError
  | some x => .ok x

/-- The median-sort path of `plot_whiskers` (whiskers.py lines 31-38):
build `labels`, `times` and `medians`, sort `range(len(labels))` with
`cmp_median(medians, labels)`, and reindex `labels` and `times` by the
sorted indices. -/
def whisk_sortPath (prs : List BenchResult) :
    Except PyErr (List String × List (List ℚ)) :=
  let labels := whisk_labels prs
  let times := whisk_times prs
  let medians := whisk_medians prs
  match sortCmp ratNonpos (cmp_median medians labels)
      (List.range labels.length) with
  | .error e => .error e
  | .ok indices =>
    match indices.mapM (pyGet labels) with
    | .error e => .error e
    | .ok labels2 =>
      match indices.mapM (pyGet times) with
      | .error e => .error e
      | .ok times2 => .ok (labels2, times2)

/-- The data path of `plot_whiskers`: `np.max(times)` runs first (raising
on an empty input), then the median-sort path when sorting by median. -/
def plot_whiskers (sort_by : String) (prs : List BenchResult) :
    Except PyErr (List String × List (List ℚ)) :=
  match npMax (whisk_times prs) with
  | .error e => .error e
  | .ok _max_time =>
    if sort_by = "median" then whisk_sortPath prs
    else .ok (whisk_labels prs, whisk_times prs)

/-- Specification-side description of the `cmp_legend` loop: the first
nonzero difference of the paired numbers, 0 when no pair differs. -/
def firstNonzeroDiff : List (ℤ × ℤ) → ℤ
  | [] => 0
  | (a, b) :: rest => if a - b ≠ 0 then a - b else firstNonzeroDiff rest

/-- Evaluation rule for `truncRat` on a nonnegative argument. -/
theorem truncRat_of_nonneg {q : ℚ} {z : ℤ} (h0 : 0 ≤ q) (h1 : (z : ℚ) ≤ q)
    (h2 : q < z + 1) : truncRat q = z := by
  unfold truncRat
  rw [if_neg (not_lt.mpr h0)]
  rw [Int.floor_eq_iff]
  constructor
  · exact h1
  · exact_mod_cast h2

/-- `truncRat` is the identity on integers. -/
theorem truncRat_intCast (z : ℤ) : truncRat (z : ℚ) = z := by
  unfold truncRat
  split
  · rw [← Int.cast_neg, Int.floor_intCast, neg_neg]
  · rw [Int.floor_intCast]

/-- A `removesuffix` call that changed the string removed exactly the
suffix. -/
theorem removesuffix_append_of_ne {s suf : String}
    (hne : removesuffix s suf ≠ s) : removesuffix s suf ++ suf = s := by
  by_cases h : suf.data ≠ [] ∧ suf.data.isSuffixOf s.data
  · unfold removesuffix
    rw [if_pos h]
    have hsf : suf.data <:+ s.data := List.isSuffixOf_iff_suffix.mp h.2
    obtain ⟨t, ht⟩ := hsf
    have hlen : s.data.length - suf.data.length = t.length := by
      rw [← ht, List.length_append]
      omega
    apply String.ext
    rw [String.data_append, hlen, ← ht, List.take_left]
  · unfold removesuffix at hne
    rw [if_neg h] at hne
    exact absurd rfl hne

/-- A digit is none of the Python whitespace characters. -/
theorem isPyWs_eq_false_of_isDigit {c : Char} (h : c.isDigit) :
    isPyWs c = false := by
  unfold isPyWs
  simp only [Bool.or_eq_false_iff, decide_eq_false_iff_not]
  refine ⟨⟨⟨⟨⟨?_, ?_⟩, ?_⟩, ?_⟩, ?_⟩, ?_⟩ <;>
    (rintro rfl; exact absurd h (by decide))

/-- Stripping trailing whitespace from an all-digit token is a no-op. -/
theorem stripTrailingWs_of_digits {cs : List Char}
    (h : ∀ c ∈ cs, c.isDigit) : stripTrailingWs cs = cs := by
  unfold stripTrailingWs
  rcases hr : cs.reverse with _ | ⟨c, rest⟩
  · simpa using congrArg List.reverse hr
  · have hc : c ∈ cs := by
      rw [← List.mem_reverse, hr]
      exact List.mem_cons_self c rest
    rw [List.dropWhile_cons, isPyWs_eq_false_of_isDigit (h c hc)]
    simp only [Bool.false_eq_true, if_false]
    rw [← hr, List.reverse_reverse]

/-- An all-digit tail is a valid integer-literal tail. -/
theorem goodTail_of_digits {cs : List Char}
    (h : ∀ c ∈ cs, c.isDigit) : goodTail cs = true := by
  induction cs with
  | nil => rfl
  | cons c rest ih =>
    have hc : c.isDigit := h c (List.mem_cons_self c rest)
    have hne : ¬ c = '_' := by
      rintro rfl
      exact absurd hc (by decide)
    unfold goodTail
    rw [if_neg hne, hc, Bool.true_and]
    exact ih fun d hd => h d (List.mem_cons_of_mem c hd)

/-- A nonempty all-digit token is a valid integer literal. -/
theorem goodCore_of_digits {cs : List Char} (hne : cs ≠ [])
    (h : ∀ c ∈ cs, c.isDigit) : goodCore cs = true := by
  rcases cs with _ | ⟨c, rest⟩
  · exact absurd rfl hne
  · show (c.isDigit && goodTail rest) = true
    rw [h c (List.mem_cons_self c rest), Bool.true_and]
    exact goodTail_of_digits fun d hd => h d (List.mem_cons_of_mem c hd)

/-- An all-digit token has no underscores to drop. -/
theorem filter_underscore_of_digits {cs : List Char}
    (h : ∀ c ∈ cs, c.isDigit) : cs.filter (fun c => !(c = '_')) = cs := by
  apply List.filter_eq_self.mpr
  intro c hc
  have : ¬ c = '_' := by
    rintro rfl
    exact absurd (h _ hc) (by decide)
  simpa using this

/-- `int()` succeeds on a nonempty all-digit token. -/
theorem pyInt_digits {cs : List Char} (hne : cs ≠ [])
    (h : ∀ c ∈ cs, c.isDigit) : pyInt cs = some (digitsVal cs) := by
  unfold pyInt
  rw [stripTrailingWs_of_digits h, if_pos (goodCore_of_digits hne h),
    filter_underscore_of_digits h]

/-- An all-digit token has no trailing b to remove. -/
theorem removeB_of_digits {cs : List Char}
    (h : ∀ c ∈ cs, c.isDigit) : removeB cs = cs := by
  unfold removeB
  rcases hl : cs.getLast? with _ | c
  · rw [if_neg (by simp)]
  · have hc : c ∈ cs := by
      have := List.getLast?_eq_getLast cs ?hne
      case hne =>
        rintro rfl
        simp at hl
      rw [this] at hl
      injection hl with hl
      rw [← hl]
      exact List.getLast_mem _
    have hb : ¬ c = 'b' := by
      rintro rfl
      exact absurd (h _ hc) (by decide)
    rw [if_neg (by simpa using hb)]

/-- `int(tok.removesuffix("b"))` succeeds on a nonempty all-digit token. -/
theorem pyIntTok_digits {cs : List Char} (hne : cs ≠ [])
    (h : ∀ c ∈ cs, c.isDigit) : pyIntTok cs = some (digitsVal cs) := by
  unfold pyIntTok
  rw [removeB_of_digits h]
  exact pyInt_digits hne h

/-- `int(tok.removesuffix("b"))` succeeds on a nonempty all-digit token with
one trailing b, and the b does not contribute to the value. -/
theorem pyIntTok_digits_b {cs : List Char} (hne : cs ≠ [])
    (h : ∀ c ∈ cs, c.isDigit) :
    pyIntTok (cs ++ ['b']) = some (digitsVal cs) := by
  unfold pyIntTok
  have : removeB (cs ++ ['b']) = cs := by
    unfold removeB
    rw [List.getLast?_concat]
    simp
  rw [this]
  exact pyInt_digits hne h

/-- Unfolding rule for the pair loop when the first token fails to parse. -/
theorem legendLoop_errA {t : List Char} {ta tb : List (List Char)}
    {u : List Char} (ha : pyIntTok t = none) :
    legendLoop (t :: ta) (u :: tb) = .error (.valueError (String.mk t)) := by
  simp only [legendLoop, ha]

/-- Unfolding rule for the pair loop when the second token fails to
parse. -/
theorem legendLoop_errB {t u : List Char} {ta tb : List (List Char)}
    {na : ℕ} (ha : pyIntTok t = some na) (hb : pyIntTok u = none) :
    legendLoop (t :: ta) (u :: tb) = .error (.valueError (String.mk u)) := by
  simp only [legendLoop, ha, hb]

/-- Unfolding rule for the pair loop when both tokens parse. -/
theorem legendLoop_step {t u : List Char} {ta tb : List (List Char)}
    {na nb : ℕ} (ha : pyIntTok t = some na) (hb : pyIntTok u = some nb) :
    legendLoop (t :: ta) (u :: tb) =
      if (na : ℤ) - nb ≠ 0 then .ok ((na : ℤ) - nb) else legendLoop ta tb := by
  simp only [legendLoop, ha, hb]

/-- The `cmp_legend` pair loop under successful parsing: it returns the
first nonzero difference of the parsed pairs, walking up to the shorter
token sequence. -/
theorem legendLoop_eq_firstNonzeroDiff :
    ∀ (ta tb : List (List Char)),
      (∀ t ∈ ta, (pyIntTok t).isSome) → (∀ t ∈ tb, (pyIntTok t).isSome) →
      legendLoop ta tb =
        .ok (firstNonzeroDiff
          ((ta.map fun t => (((pyIntTok t).getD 0 : ℕ) : ℤ)).zip
           (tb.map fun t => (((pyIntTok t).getD 0 : ℕ) : ℤ)))) := by
  intro ta
  induction ta with
  | nil =>
    intro tb _ _
    rfl
  | cons t resta ih =>
    intro tb ha hb
    rcases tb with _ | ⟨u, restb⟩
    · rfl
    · obtain ⟨na, hna⟩ := Option.isSome_iff_exists.mp (ha t (List.mem_cons_self t resta))
      obtain ⟨nb, hnb⟩ := Option.isSome_iff_exists.mp (hb u (List.mem_cons_self u restb))
      unfold legendLoop
      rw [hna, hnb]
      simp only [List.map_cons, List.zip_cons_cons, hna, hnb, Option.getD_some]
      unfold firstNonzeroDiff
      by_cases hd : (na : ℤ) - nb ≠ 0
      · rw [if_pos hd, if_pos hd]
      · rw [if_neg hd, if_neg hd]
        exact ih restb (fun x hx => ha x (List.mem_cons_of_mem t hx))
          (fun x hx => hb x (List.mem_cons_of_mem u hx))

/-- Sign antisymmetry of the `cmp_legend` pair loop on successful
comparisons. -/
theorem legendLoop_antisymm :
    ∀ (ta tb : List (List Char)) (v : ℤ),
      legendLoop ta tb = .ok v → legendLoop tb ta = .ok (-v) := by
  intro ta
  induction ta with
  | nil =>
    intro tb v h
    rcases tb with _ | ⟨u, restb⟩ <;>
      (simp only [legendLoop, Except.ok.injEq] at h; subst h; rfl)
  | cons t resta ih =>
    intro tb v h
    rcases tb with _ | ⟨u, restb⟩
    · simp only [legendLoop, Except.ok.injEq] at h
      subst h
      rfl
    · rcases hna : pyIntTok t with _ | na
      · rw [legendLoop_errA hna] at h
        exact absurd h (by simp)
      · rcases hnb : pyIntTok u with _ | nb
        · rw [legendLoop_errB hna hnb] at h
          exact absurd h (by simp)
        · rw [legendLoop_step hna hnb] at h
          rw [legendLoop_step hnb hna]
          by_cases hd : (na : ℤ) - nb ≠ 0
          · rw [if_pos hd] at h
            have hd2 : (nb : ℤ) - na ≠ 0 := fun hc => hd (by omega)
            rw [if_pos hd2]
            injection h with h
            rw [← h]
            congr 1
            omega
          · rw [if_neg hd] at h
            push_neg at hd
            have hd2 : ¬ ((nb : ℤ) - na ≠ 0) := by omega
            rw [if_neg hd2]
            exact ih restb v h

/-- `cmp_median_multi` on groups whose records all have a first
measurement: the truncated difference of the two sum-over-2 averages,
whatever the sizes of the two configuration maps. -/
theorem cmp_median_multi_eq {i j : PGroup} {mi mj : List ℚ}
    (hi : firstMedians i.2 = .ok mi) (hj : firstMedians j.2 = .ok mj) :
    cmp_median_multi i j = .ok (truncRat (mi.sum / 2 - mj.sum / 2)) := by
  simp only [cmp_median_multi, hi, hj]

/-- A negative truncation comes from a negative argument. -/
theorem neg_of_truncRat_neg {q : ℚ} (h : truncRat q < 0) : q < 0 := by
  by_contra hq
  push_neg at hq
  unfold truncRat at h
  rw [if_neg (not_lt.mpr hq)] at h
  have : (0 : ℤ) ≤ Int.floor q := Int.floor_nonneg.mpr hq
  omega

/-- Truncation of a nonpositive argument is nonpositive. -/
theorem truncRat_nonpos_of_nonpos {q : ℚ} (h : q ≤ 0) : truncRat q ≤ 0 := by
  unfold truncRat
  split
  · rename_i hq
    have : (0 : ℤ) ≤ Int.floor (-q) := Int.floor_nonneg.mpr (by linarith)
    omega
  · rename_i hq
    have : q = 0 := le_antisymm h (not_lt.mp hq)
    rw [this]
    simp

/-- A positive truncation comes from a positive argument. -/
theorem pos_of_truncRat_pos {q : ℚ} (h : 0 < truncRat q) : 0 < q := by
  by_contra hq
  push_neg at hq
  have := truncRat_nonpos_of_nonpos hq
  omega

/-- Bind on a successful Except value. -/
theorem exceptBind_ok {α β : Type} (a : α) (f : α → Except PyErr β) :
    (Except.ok a >>= f) = f a := rfl

/-- Bind on a failed Except value. -/
theorem exceptBind_error {α β : Type} (e : PyErr) (f : α → Except PyErr β) :
    ((Except.error e : Except PyErr α) >>= f) = .error e := rfl

/-- An invariant preserved by every successful step of a fold is preserved
by a successful `foldlM` over `Except`. -/
theorem foldlM_ok_preserve {σ ι : Type} {f : σ → ι → Except PyErr σ}
    (P : σ → Prop) (hf : ∀ s i s2, f s i = .ok s2 → P s → P s2) :
    ∀ (l : List ι) (s s2 : σ), l.foldlM f s = .ok s2 → P s → P s2 := by
  intro l
  induction l with
  | nil =>
    intro s s2 h hp
    rw [List.foldlM_nil] at h
    have h2 : (Except.ok s : Except PyErr σ) = .ok s2 := h
    injection h2 with h2
    rw [← h2]
    exact hp
  | cons x xs ih =>
    intro s s2 h hp
    rw [List.foldlM_cons] at h
    rcases hf1 : f s x with e | s1
    · rw [hf1, exceptBind_error] at h
      exact absurd h (by simp)
    · rw [hf1, exceptBind_ok] at h
      exact ih s1 s2 h (hf s x s1 hf1 hp)

/-- Keys after a dict update: unchanged when the key was present, the key
appended at the end when it was not, Python dict semantics. -/
theorem updInner_keys (c : String) (b : BenchResult) :
    ∀ l : List (String × BenchResult),
      (updInner c b l).map Prod.fst =
        if c ∈ l.map Prod.fst then l.map Prod.fst
        else l.map Prod.fst ++ [c] := by
  intro l
  induction l with
  | nil => simp [updInner]
  | cons p rest ih =>
    rcases p with ⟨k, v⟩
    by_cases hk : k = c
    · subst hk
      simp [updInner]
    · have hck : ¬ c = k := fun hc => hk hc.symm
      simp only [updInner, if_neg hk, List.map_cons, ih, List.mem_cons, hck,
        false_or]
      split <;> simp

/-- A dict update preserves distinctness of the keys. -/
theorem updInner_nodup {c : String} {b : BenchResult}
    {l : List (String × BenchResult)} (h : (l.map Prod.fst).Nodup) :
    ((updInner c b l).map Prod.fst).Nodup := by
  rw [updInner_keys]
  split
  · exact h
  · rename_i hc
    rw [List.nodup_append]
    exact ⟨h, List.nodup_singleton c, by simpa using hc⟩

/-- The GroupedByBaseName invariant: within each base-name entry, every
configuration label occurs at most once. -/
def InnerNodup (pf : List (String × List (String × BenchResult))) : Prop :=
  ∀ g ∈ pf, (g.2.map Prod.fst).Nodup

/-- Storing a record under a base name and configuration preserves the
GroupedByBaseName invariant. -/
theorem updOuter_innerNodup {bn config : String} {br : BenchResult}
    {pf : List (String × List (String × BenchResult))}
    (h : InnerNodup pf) : InnerNodup (updOuter bn config br pf) := by
  induction pf with
  | nil =>
    intro g hg
    simp only [updOuter, List.mem_singleton] at hg
    subst hg
    simp
  | cons p rest ih =>
    rcases p with ⟨n, inner⟩
    by_cases hn : n = bn
    · subst hn
      intro g hg
      simp only [updOuter, if_true] at hg
      rcases List.mem_cons.mp hg with hg2 | hg2
      · subst hg2
        exact updInner_nodup (h (n, inner) (List.mem_cons_self _ _))
      · exact h g (List.mem_cons_of_mem _ hg2)
    · intro g hg
      simp only [updOuter, if_neg hn, List.mem_cons] at hg
      rcases hg with hg | hg
      · subst hg
        exact h (n, inner) (List.mem_cons_self _ _)
      · exact ih (fun g2 hg2 => h g2 (List.mem_cons_of_mem _ hg2)) g hg

/-- Every grouping state reachable by the grouping loop of `plot_cmp_bars`
satisfies the GroupedByBaseName invariant. -/
theorem buildPerFileMax_innerNodup {legend : List String}
    {periscope_results : List (String × List BenchResult)}
    {pf : List (String × List (String × BenchResult))} {mx : ℚ}
    (h : buildPerFileMax legend periscope_results = .ok (pf, mx)) :
    InnerNodup pf := by
  refine foldlM_ok_preserve
    (fun st : List (String × List (String × BenchResult)) × ℚ =>
      InnerNodup st.1)
    ?_ legend ([], 0) (pf, mx) h ?_
  · intro s bench_config s2 hstep hp
    refine foldlM_ok_preserve
      (fun st : List (String × List (String × BenchResult)) × ℚ =>
        InnerNodup st.1)
      ?_ ((periscope_results.lookup bench_config).getD []) s s2 hstep hp
    intro t br t2 hinner hpt
    rcases hm : firstMedian br with e | m
    · rw [hm] at hinner
      exact absurd hinner (by simp)
    · rw [hm] at hinner
      injection hinner with hinner
      rw [← hinner]
      exact updOuter_innerNodup hpt
  · intro g hg
    simp at hg

/-- A successful comparator insertion produces a permutation of the element
and the old list. -/
theorem insertCmp_ok_perm {α β : Type} {nonpos : β → Bool}
    {cmp : α → α → Except PyErr β} {x : α} :
    ∀ {l m : List α}, insertCmp nonpos cmp x l = .ok m → m.Perm (x :: l) := by
  intro l
  induction l with
  | nil =>
    intro m h
    injection h with h
    rw [← h]
  | cons y ys ih =>
    intro m h
    rcases hc : cmp x y with e | c
    · simp only [insertCmp, hc] at h
      exact absurd h (by simp)
    · simp only [insertCmp, hc] at h
      by_cases hnp : nonpos c
      · rw [if_pos hnp] at h
        injection h with h
        rw [← h]
      · rw [if_neg hnp] at h
        rcases hr : insertCmp nonpos cmp x ys with e | rest
        · rw [hr] at h
          exact absurd h (by simp)
        · rw [hr] at h
          injection h with h
          rw [← h]
          exact (List.Perm.cons y (ih hr)).trans (List.Perm.swap x y ys)

/-- A comparator insertion succeeds when the element compares successfully
against every list element. -/
theorem insertCmp_total {α β : Type} (nonpos : β → Bool)
    (cmp : α → α → Except PyErr β) (x : α) :
    ∀ {l : List α}, (∀ y ∈ l, ∃ c, cmp x y = .ok c) →
      ∃ m, insertCmp nonpos cmp x l = .ok m := by
  intro l
  induction l with
  | nil => exact fun _ => ⟨[x], rfl⟩
  | cons y ys ih =>
    intro h
    obtain ⟨c, hc⟩ := h y (List.mem_cons_self y ys)
    by_cases hnp : nonpos c
    · exact ⟨x :: y :: ys, by simp only [insertCmp, hc, if_pos hnp]⟩
    · obtain ⟨m, hm⟩ := ih fun z hz => h z (List.mem_cons_of_mem y hz)
      exact ⟨y :: m, by simp only [insertCmp, hc, if_neg hnp, hm]⟩

/-- A successful comparator sort returns a permutation of its input. -/
theorem sortCmp_ok_perm {α β : Type} {nonpos : β → Bool}
    {cmp : α → α → Except PyErr β} :
    ∀ {l m : List α}, sortCmp nonpos cmp l = .ok m → m.Perm l := by
  intro l
  induction l with
  | nil =>
    intro m h
    injection h with h
    rw [← h]
  | cons x xs ih =>
    intro m h
    simp only [sortCmp] at h
    rcases hr : sortCmp nonpos cmp xs with e | rest
    · rw [hr] at h
      exact absurd h (by simp)
    · rw [hr] at h
      exact (insertCmp_ok_perm h).trans (List.Perm.cons x (ih hr))

/-- A comparator sort succeeds when the comparator succeeds on every pair
of input elements, and the result is a permutation of the input. -/
theorem sortCmp_total {α β : Type} (nonpos : β → Bool)
    (cmp : α → α → Except PyErr β) :
    ∀ (l : List α), (∀ x ∈ l, ∀ y ∈ l, ∃ c, cmp x y = .ok c) →
      ∃ m, sortCmp nonpos cmp l = .ok m ∧ m.Perm l := by
  intro l
  induction l with
  | nil => exact fun _ => ⟨[], rfl, List.Perm.refl []⟩
  | cons x xs ih =>
    intro h
    obtain ⟨rest, hrest, hperm⟩ :=
      ih fun a ha b hb =>
        h a (List.mem_cons_of_mem x ha) b (List.mem_cons_of_mem x hb)
    obtain ⟨m, hm⟩ := insertCmp_total nonpos cmp x
      (fun y hy =>
        h x (List.mem_cons_self x xs) y (List.mem_cons_of_mem x (hperm.mem_iff.mp hy)))
    refine ⟨m, ?_, ?_⟩
    · simp only [sortCmp, hrest, hm]
    · exact (insertCmp_ok_perm hm).trans (List.Perm.cons x hperm)

/-- Reindexing through Python list indexing succeeds on in-range indices
and agrees with the defaulted lookup. -/
theorem mapM_pyGet {α : Type} (d : α) :
    ∀ (idx : List ℕ) (l : List α), (∀ i ∈ idx, i < l.length) →
      idx.mapM (pyGet l) = .ok (idx.map fun i => l.getD i d) := by
  intro idx
  induction idx with
  | nil => intro l _; rfl
  | cons i idx ih =>
    intro l h
    rw [List.mapM_cons]
    have hi : i < l.length := h i (List.mem_cons_self i idx)
    have hget : pyGet l i = .ok (l.getD i d) := by
      unfold pyGet
      rw [List.getElem?_eq_getElem hi]
      rw [List.getD_eq_getElem?_getD, List.getElem?_eq_getElem hi]
      rfl
    rw [hget, exceptBind_ok, ih l (fun a ha => h a (List.mem_cons_of_mem i ha)),
      exceptBind_ok]
    rfl

/-- Indexing a pair of equal-length lists over `range` recovers their
zip. -/
theorem range_map_getD_zip {α β : Type} (d1 : α) (d2 : β) :
    ∀ (l1 : List α) (l2 : List β), l1.length = l2.length →
      ((List.range l1.length).map fun i => (l1.getD i d1, l2.getD i d2)) =
        l1.zip l2 := by
  intro l1
  induction l1 with
  | nil => intro l2 _; rfl
  | cons a l1 ih =>
    intro l2 h
    rcases l2 with _ | ⟨b, l2⟩
    · simp at h
    · rw [List.length_cons, List.range_succ_eq_map, List.map_cons,
        List.map_map, List.zip_cons_cons, ← ih l2 (by simpa using h)]
      congr 1

/-- When every benchmark has exactly one measurement, the flattened times
list has one row per benchmark: that benchmark's single sample list. -/
theorem whisk_times_of_single :
    ∀ {prs : List BenchResult},
      (∀ pr ∈ prs, pr.hyperfine_results.length = 1) →
      whisk_times prs =
        prs.map fun pr => (pr.hyperfine_results.headD ⟨0, []⟩).times := by
  intro prs
  induction prs with
  | nil => intro _; rfl
  | cons pr prs ih =>
    intro h
    obtain ⟨r, hr⟩ :=
      List.length_eq_one.mp (h pr (List.mem_cons_self pr prs))
    unfold whisk_times at ih ⊢
    rw [List.flatMap_cons, List.map_cons, hr,
      ih fun p hp => h p (List.mem_cons_of_mem pr hp)]
    rfl

/-- When every benchmark has exactly one measurement, the flattened medians
list has one entry per benchmark: its single measurement's median. -/
theorem whisk_medians_of_single :
    ∀ {prs : List BenchResult},
      (∀ pr ∈ prs, pr.hyperfine_results.length = 1) →
      whisk_medians prs =
        prs.map fun pr => (pr.hyperfine_results.headD ⟨0, []⟩).median := by
  intro prs
  induction prs with
  | nil => intro _; rfl
  | cons pr prs ih =>
    intro h
    obtain ⟨r, hr⟩ :=
      List.length_eq_one.mp (h pr (List.mem_cons_self pr prs))
    unfold whisk_medians at ih ⊢
    rw [List.flatMap_cons, List.map_cons, hr,
      ih fun p hp => h p (List.mem_cons_of_mem pr hp)]
    rfl

/-- `cmp_median` succeeds on in-range indices of equal-length parallel
arrays. -/
theorem cmp_median_ok_of_lt {medians : List ℚ} {labels : List String}
    (hlen : medians.length = labels.length) {i j : ℕ}
    (hi : i < labels.length) (hj : j < labels.length) :
    ∃ c, cmp_median medians labels i j = .ok c := by
  have hi2 : i < medians.length := by omega
  have hj2 : j < medians.length := by omega
  simp only [cmp_median, List.getElem?_eq_getElem hi2,
    List.getElem?_eq_getElem hj2, List.getElem?_eq_getElem hi,
    List.getElem?_eq_getElem hj]
  by_cases hd : medians[i] - medians[j] = 0
  · rw [if_pos hd]
    exact ⟨_, rfl⟩
  · rw [if_neg hd]
    exact ⟨_, rfl⟩

/-- C1: the spec claims `cmp_median` places `i` before `j` iff
`medians[i] < medians[j]` with an ascending lexicographic fallback on the
labels forming a total order; in the code the tie branch returns the Python
boolean `labels[i] < labels[j]`, consumed by `cmp_to_key` as 1 or 0.  At
medians `[1, 1]` and labels `["a", "b"]` the comparator answers 1 for
`(0, 1)` (placing the smaller label "a" after "b") and 0 for `(1, 0)` (a
tie), so the tie fallback is neither ascending lexicographic nor
antisymmetric. -/
theorem cmp_median_tie_returns_bool :
    cmp_median [1, 1] ["a", "b"] 0 1 = .ok 1 ∧
    cmp_median [1, 1] ["a", "b"] 1 0 = .ok 0 :=
  ⟨by with_unfolding_all decide, by with_unfolding_all decide⟩

/-- C2 counterexample: `"llama-7b-rotorized.btor2-35"` does not normalize
to `"llama-7b"`: the `"-rotorized.btor2"` suffix is attempted first, while
the name still ends in `"-35"`, so only `"-35"` is removed. -/
theorem b_name_order_counterexample :
    b_name "llama-7b-rotorized.btor2-35" = "llama-7b-rotorized.btor2" ∧
    b_name "llama-7b-rotorized.btor2-35" ≠ "llama-7b" :=
  ⟨by with_unfolding_all decide, by with_unfolding_all decide⟩

/-- C2 amended: base-name normalization attempts each suffix exactly once,
in the fixed order "-rotorized.btor2", "-35", "-10", "-1", "-2", "-3",
removing a suffix exactly when present and attempting every listed suffix
regardless of earlier matches; since "-rotorized.btor2" is attempted before
"-35" uncovers it, `"llama-7b-rotorized.btor2-35"` normalizes to
`"llama-7b-rotorized.btor2"` (not `"llama-7b"`), while `"model-2"`
normalizes to `"model"`. -/
theorem b_name_sequential_amended :
    (∀ s suf : String, removesuffix s suf ≠ s →
      removesuffix s suf ++ suf = s) ∧
    (∀ s : String, b_name s =
      List.foldl removesuffix s
        ["-rotorized.btor2", "-35", "-10", "-1", "-2", "-3"]) ∧
    b_name "llama-7b-rotorized.btor2-35" = "llama-7b-rotorized.btor2" ∧
    b_name "model-2" = "model" :=
  ⟨fun _ _ h => removesuffix_append_of_ne h,
    fun s => by simp only [b_name, List.foldl_cons, List.foldl_nil],
    by with_unfolding_all decide, by with_unfolding_all decide⟩

/-- C2 amended, witness: stripping the present suffix "-35" from
"model-35" removes exactly that suffix. -/
theorem b_name_sequential_amended_witness :
    removesuffix "model-35" "-35" ++ "-35" = "model-35" :=
  b_name_sequential_amended.1 "model-35" "-35" (by with_unfolding_all decide)

/-- C3: `cmp_median_multi` divides each group's sum of first-measurement
medians by the tuple arity 2 whatever the size of the configuration map;
the two 2-configuration groups with medians 1,3 and 2,2 compare equal, and
a 1-configuration group with median 2 compares below a 2-configuration
group with medians 1,3 (averages 1 and 2 under the divide-by-2 rule, where
dividing by the map sizes would have given 2 and 2). -/
theorem cmp_median_multi_divides_by_arity :
    (∀ (i j : PGroup) (mi mj : List ℚ),
      firstMedians i.2 = .ok mi → firstMedians j.2 = .ok mj →
      cmp_median_multi i j = .ok (truncRat (mi.sum / 2 - mj.sum / 2))) ∧
    cmp_median_multi
      ("g1", [("c1", ⟨"n1", [⟨1, [1]⟩]⟩), ("c2", ⟨"n2", [⟨3, [3]⟩]⟩)])
      ("g2", [("c1", ⟨"n3", [⟨2, [2]⟩]⟩), ("c2", ⟨"n4", [⟨2, [2]⟩]⟩)]) =
      .ok 0 ∧
    cmp_median_multi
      ("g1", [("c1", ⟨"n1", [⟨2, [2]⟩]⟩)])
      ("g2", [("c1", ⟨"n3", [⟨1, [1]⟩]⟩), ("c2", ⟨"n4", [⟨3, [3]⟩]⟩)]) =
      .ok (-1) :=
  ⟨fun _ _ _ _ hi hj => cmp_median_multi_eq hi hj,
    by with_unfolding_all decide, by with_unfolding_all decide⟩

/-- C3 witness: the general formula instantiated at two singleton
groups. -/
theorem cmp_median_multi_divides_by_arity_witness :
    cmp_median_multi
      ("a", [("c", ⟨"n", [⟨1, [1]⟩]⟩)])
      ("b", [("c", ⟨"n2", [⟨2, [2]⟩]⟩)]) =
      .ok (truncRat (([1] : List ℚ).sum / 2 - ([2] : List ℚ).sum / 2)) :=
  cmp_median_multi_divides_by_arity.1
    ("a", [("c", ⟨"n", [⟨1, [1]⟩]⟩)])
    ("b", [("c", ⟨"n2", [⟨2, [2]⟩]⟩)]) [1] [2]
    (by with_unfolding_all decide) (by with_unfolding_all decide)

/-- C4 counterexample: with sort mode "median", a run whose two base-name
groups have averages 1.9 and 1.2 is returned in its original, descending
order, because the truncated-to-integer difference int(0.7) is 0; so the
sort does not order groups ascending by average median. -/
theorem plot_cmp_bars_not_ascending_counterexample :
    plot_cmp_bars "median"
      [("cfg", [⟨"m1-1", [⟨19/5, [4]⟩]⟩, ⟨"m2-1", [⟨12/5, [2]⟩]⟩])] =
      .ok [("m1", [("cfg", ⟨"m1-1", [⟨19/5, [4]⟩]⟩)]),
           ("m2", [("cfg", ⟨"m2-1", [⟨12/5, [2]⟩]⟩)])] ∧
    ((19 : ℚ)/5) / 2 > ((12 : ℚ)/5) / 2 :=
  ⟨by with_unfolding_all decide, by with_unfolding_all decide⟩

/-- C4 amended: `cmp_median_multi` returns the truncated-to-integer
difference of the two group averages, so with sort mode "median" the
groups are ordered ascending only up to that truncation: a negative
(positive) comparison implies a strictly smaller (larger) first average
and in-order averages never compare positive, but groups whose averages
differ by less than 1 compare equal and keep their input order, as the two
concrete sorts show (averages 2.5/1.0 are swapped into ascending order;
averages 2.9/2.2 stay in descending input order). -/
theorem cmp_median_multi_truncated_order_amended :
    (∀ (i j : PGroup) (mi mj : List ℚ),
      firstMedians i.2 = .ok mi → firstMedians j.2 = .ok mj →
      cmp_median_multi i j = .ok (truncRat (mi.sum / 2 - mj.sum / 2)) ∧
      (truncRat (mi.sum / 2 - mj.sum / 2) < 0 → mi.sum / 2 < mj.sum / 2) ∧
      (mi.sum / 2 ≤ mj.sum / 2 → truncRat (mi.sum / 2 - mj.sum / 2) ≤ 0)) ∧
    sortCmp intNonpos cmp_median_multi
      [("h", [("c", ⟨"n1", [⟨5, [5]⟩]⟩)]), ("l", [("c", ⟨"n2", [⟨2, [2]⟩]⟩)])] =
      .ok [("l", [("c", ⟨"n2", [⟨2, [2]⟩]⟩)]), ("h", [("c", ⟨"n1", [⟨5, [5]⟩]⟩)])] ∧
    sortCmp intNonpos cmp_median_multi
      [("x", [("c", ⟨"n1", [⟨29/5, [5]⟩]⟩)]), ("y", [("c", ⟨"n2", [⟨22/5, [2]⟩]⟩)])] =
      .ok [("x", [("c", ⟨"n1", [⟨29/5, [5]⟩]⟩)]), ("y", [("c", ⟨"n2", [⟨22/5, [2]⟩]⟩)])] := by
  refine ⟨fun i j mi mj hi hj => ⟨cmp_median_multi_eq hi hj, fun hlt => ?_, fun hle => ?_⟩,
    by with_unfolding_all decide, by with_unfolding_all decide⟩
  · have := neg_of_truncRat_neg hlt
    linarith
  · exact truncRat_nonpos_of_nonpos (by linarith)

/-- C4 amended, witness: the comparator formula and order facts
instantiated at two singleton groups with medians 1 and 4. -/
theorem cmp_median_multi_truncated_order_amended_witness :
    cmp_median_multi
      ("a", [("c", ⟨"n", [⟨1, [1]⟩]⟩)])
      ("b", [("c", ⟨"n2", [⟨4, [4]⟩]⟩)]) =
      .ok (truncRat (([1] : List ℚ).sum / 2 - ([4] : List ℚ).sum / 2)) ∧
    (truncRat (([1] : List ℚ).sum / 2 - ([4] : List ℚ).sum / 2) < 0 →
      ([1] : List ℚ).sum / 2 < ([4] : List ℚ).sum / 2) ∧
    (([1] : List ℚ).sum / 2 ≤ ([4] : List ℚ).sum / 2 →
      truncRat (([1] : List ℚ).sum / 2 - ([4] : List ℚ).sum / 2) ≤ 0) :=
  cmp_median_multi_truncated_order_amended.1
    ("a", [("c", ⟨"n", [⟨1, [1]⟩]⟩)])
    ("b", [("c", ⟨"n2", [⟨4, [4]⟩]⟩)]) [1] [4]
    (by with_unfolding_all decide) (by with_unfolding_all decide)

/-- C5: when every extracted digit-initial token of both labels parses,
`cmp_legend` splits on dashes, keeps digit-initial tokens, strips one
trailing b, parses integers, and returns the first nonzero pairwise
difference over the zipped (shorter-length) walk, 0 otherwise; in
particular "7b-13b-quant.json" orders before "7b-14b-quant.json"
(13 - 14 = -1 at the second token) and two labels without digit-initial
tokens compare equal. -/
theorem cmp_legend_first_nonzero_diff :
    (∀ a b : String,
      (∀ t ∈ legendTokens a, (pyIntTok t).isSome) →
      (∀ t ∈ legendTokens b, (pyIntTok t).isSome) →
      cmp_legend a b = .ok (firstNonzeroDiff
        (((legendTokens a).map fun t => (((pyIntTok t).getD 0 : ℕ) : ℤ)).zip
         ((legendTokens b).map fun t => (((pyIntTok t).getD 0 : ℕ) : ℤ))))) ∧
    cmp_legend "7b-13b-quant.json" "7b-14b-quant.json" = .ok (-1) ∧
    cmp_legend "default-quant.json" "baseline.json" = .ok 0 :=
  ⟨fun _ _ ha hb => legendLoop_eq_firstNonzeroDiff _ _ ha hb,
    by with_unfolding_all decide, by with_unfolding_all decide⟩

/-- C5 witness: the general description instantiated at labels "7b" and
"13b". -/
theorem cmp_legend_first_nonzero_diff_witness :
    cmp_legend "7b" "13b" = .ok (firstNonzeroDiff
      (((legendTokens "7b").map fun t => (((pyIntTok t).getD 0 : ℕ) : ℤ)).zip
       ((legendTokens "13b").map fun t => (((pyIntTok t).getD 0 : ℕ) : ℤ)))) :=
  cmp_legend_first_nonzero_diff.1 "7b" "13b"
    (by with_unfolding_all decide) (by with_unfolding_all decide)

/-- C6 counterexample: ties under `cmp_legend` are not transitive: "1" ties
with "x" (no paired tokens) and "x" ties with "2", yet "1" compares
strictly below "2", so the comparator is not a total order. -/
theorem cmp_legend_ties_not_transitive_counterexample :
    cmp_legend "1" "x" = .ok 0 ∧
    cmp_legend "x" "2" = .ok 0 ∧
    cmp_legend "1" "2" = .ok (-1) :=
  ⟨by with_unfolding_all decide, by with_unfolding_all decide,
    by with_unfolding_all decide⟩

/-- C6 amended: `cmp_legend` is antisymmetric in sign on successful
comparisons (swapping the labels negates the result), but it is not a
total order: transitivity, including transitivity of ties, fails because a
label without digit-initial tokens ties with everything. -/
theorem cmp_legend_antisymm_amended :
    ∀ (a b : String) (v : ℤ),
      cmp_legend a b = .ok v → cmp_legend b a = .ok (-v) :=
  fun _ _ v h => legendLoop_antisymm _ _ v h

/-- C6 amended, witness: antisymmetry instantiated at "3" and "5". -/
theorem cmp_legend_antisymm_amended_witness :
    cmp_legend "5" "3" = .ok (-(-2)) :=
  cmp_legend_antisymm_amended "3" "5" (-2) (by with_unfolding_all decide)

/-- C7 counterexample: the token "1_0" starts with a digit and contains a
non-digit character other than a single trailing b, yet `cmp_legend` does
not fail on it: Python's int accepts single underscores between digits, so
"1_0" parses as 10 and the comparison returns 10 - 2 = 8. -/
theorem cmp_legend_underscore_counterexample :
    cmp_legend "1_0" "2" = .ok 8 :=
  by with_unfolding_all decide

/-- C7 amended: `cmp_legend` never raises for a digit-initial token made of
digits, optionally followed by one trailing b (the suffix strip is a no-op
without the b), and never raises when all extracted tokens of both labels
parse; a digit-initial token that is not digits-with-single-underscores
(plus optional trailing b and trailing whitespace) raises an uncaught
ValueError naming the token, as "7x" does; tokens such as "1_0" parse as
integers (10) instead of failing. -/
theorem cmp_legend_token_error_amended :
    (∀ cs : List Char, cs ≠ [] → (∀ c ∈ cs, c.isDigit) →
      pyIntTok cs = some (digitsVal cs) ∧
      pyIntTok (cs ++ ['b']) = some (digitsVal cs)) ∧
    (∀ a b : String,
      (∀ t ∈ legendTokens a, (pyIntTok t).isSome) →
      (∀ t ∈ legendTokens b, (pyIntTok t).isSome) →
      ∃ v, cmp_legend a b = .ok v) ∧
    cmp_legend "7x" "1" = .error (.valueError "7x") ∧
    cmp_legend "1_0" "2" = .ok 8 :=
  ⟨fun _ hne hd => ⟨pyIntTok_digits hne hd, pyIntTok_digits_b hne hd⟩,
    fun _ _ ha hb => ⟨_, legendLoop_eq_firstNonzeroDiff _ _ ha hb⟩,
    by with_unfolding_all decide, by with_unfolding_all decide⟩

/-- C7 amended, witness: the no-raise facts instantiated at the digits
"42". -/
theorem cmp_legend_token_error_amended_witness :
    pyIntTok ['4', '2'] = some (digitsVal ['4', '2']) ∧
    pyIntTok (['4', '2'] ++ ['b']) = some (digitsVal ['4', '2']) :=
  cmp_legend_token_error_amended.1 ['4', '2'] (by decide) (by decide)

/-- C8: on an empty ResultSet neither chart builder raises a descriptive
empty-input error: `plot_cmp_bars` crashes with ZeroDivisionError at
`bar_w = (1 - 0.4) / len(legend)` and `plot_whiskers` crashes with the
ValueError of `np.max` over an empty sequence, the very unrelated numeric
operations the spec's error design rules out. -/
theorem empty_input_numeric_crash :
    plot_cmp_bars "median" [] = .error .zeroDivisionError ∧
    plot_whiskers "median" [] = .error (.valueError
      "zero-size array to reduction operation maximum which has no identity") :=
  ⟨by with_unfolding_all decide, by with_unfolding_all decide⟩

/-- C9: for every input ResultSet and legend, the per-base-name grouping
built by the loop of `plot_cmp_bars` satisfies the GroupedByBaseName
invariant: within each base-name entry the configuration keys are
pairwise distinct, so each ConfigurationLabel maps to at most one
BenchmarkRecord. -/
theorem per_file_at_most_one_record_per_label :
    ∀ (legend : List String)
      (periscope_results : List (String × List BenchResult))
      (pf : List (String × List (String × BenchResult))) (mx : ℚ),
      buildPerFileMax legend periscope_results = .ok (pf, mx) →
      ∀ g ∈ pf, (g.2.map Prod.fst).Nodup :=
  fun _ _ _ _ h _ hg => buildPerFileMax_innerNodup h _ hg

/-- C9 witness: the invariant instantiated on a one-configuration run. -/
theorem per_file_at_most_one_record_per_label_witness :
    (([("c", BenchResult.mk "m-1" [HyperfineResult.mk 1 [1]])]).map
      Prod.fst).Nodup :=
  per_file_at_most_one_record_per_label ["c"]
    [("c", [BenchResult.mk "m-1" [HyperfineResult.mk 1 [1]]])]
    [("m", [("c", BenchResult.mk "m-1" [HyperfineResult.mk 1 [1]])])] 1
    (by with_unfolding_all decide)
    ("m", [("c", BenchResult.mk "m-1" [HyperfineResult.mk 1 [1]])])
    (by with_unfolding_all decide)

/-- C10: when every BenchResult carries exactly one hyperfine result, the
median-sort path of `plot_whiskers` is well defined: no indexing is out of
range and the output label/times rows are a permutation of the input
benchmarks each paired with its own sample list; without the
precondition the path can fail, as with one two-measurement benchmark
followed by two without measurements, where the comparator indexes the
shorter medians array out of range. -/
theorem whiskers_median_sort_precondition :
    (∀ prs : List BenchResult,
      (∀ pr ∈ prs, pr.hyperfine_results.length = 1) →
      ∃ labels2 times2,
        whisk_sortPath prs = .ok (labels2, times2) ∧
        (labels2.zip times2).Perm
          (prs.map fun pr =>
            (pr.name, (pr.hyperfine_results.headD ⟨0, []⟩).times))) ∧
    whisk_sortPath [⟨"a", [⟨1, [1]⟩, ⟨2, [2]⟩]⟩, ⟨"b", []⟩, ⟨"c", []⟩] =
      .error .indexError := by
  constructor
  · intro prs h
    have htimes := whisk_times_of_single h
    have hlen_lab : (whisk_labels prs).length = prs.length := by
      simp [whisk_labels]
    have hlen_m : (whisk_medians prs).length = (whisk_labels prs).length := by
      rw [whisk_medians_of_single h, hlen_lab]
      simp
    have hlen_t : (whisk_times prs).length = (whisk_labels prs).length := by
      rw [htimes, hlen_lab]
      simp
    obtain ⟨indices, hsort, hperm⟩ :=
      sortCmp_total ratNonpos
        (cmp_median (whisk_medians prs) (whisk_labels prs))
        (List.range (whisk_labels prs).length)
        (fun x hx y hy =>
          cmp_median_ok_of_lt hlen_m (List.mem_range.mp hx)
            (List.mem_range.mp hy))
    have hidx : ∀ i ∈ indices, i < (whisk_labels prs).length :=
      fun i hi => List.mem_range.mp (hperm.mem_iff.mp hi)
    have hm1 := mapM_pyGet "" indices (whisk_labels prs) hidx
    have hm2 := mapM_pyGet ([] : List ℚ) indices (whisk_times prs)
      (fun i hi => by rw [hlen_t]; exact hidx i hi)
    refine ⟨indices.map (fun i => (whisk_labels prs).getD i ""),
      indices.map (fun i => (whisk_times prs).getD i []), ?_, ?_⟩
    · simp only [whisk_sortPath, hsort, hm1, hm2]
    · rw [List.zip_map']
      have hmap := hperm.map fun i =>
        ((whisk_labels prs).getD i "", (whisk_times prs).getD i [])
      rw [range_map_getD_zip "" [] (whisk_labels prs) (whisk_times prs)
        (by omega)] at hmap
      refine hmap.trans ?_
      rw [htimes]
      unfold whisk_labels
      rw [List.zip_map']
  · with_unfolding_all decide

/-- C10 witness: the sort path on two single-measurement benchmarks. -/
theorem whiskers_median_sort_precondition_witness :
    ∃ labels2 times2,
      whisk_sortPath [⟨"b", [⟨2, [2]⟩]⟩, ⟨"a", [⟨1, [1]⟩]⟩] =
        .ok (labels2, times2) ∧
      (labels2.zip times2).Perm
        (([⟨"b", [⟨2, [2]⟩]⟩, ⟨"a", [⟨1, [1]⟩]⟩] : List BenchResult).map
          fun pr => (pr.name, (pr.hyperfine_results.headD ⟨0, []⟩).times)) :=
  whiskers_median_sort_precondition.1
    [⟨"b", [⟨2, [2]⟩]⟩, ⟨"a", [⟨1, [1]⟩]⟩] (by with_unfolding_all decide)

end Periscope
